import Mathlib

/-!
Verification of the Face-Morphing engine (src/Morphing.py) against its
natural-language specification.

The Python code is shallowly embedded over exact rationals:

* `Affine.__init__` / `Affine._CreateMatrix` (Morphing.py lines 13-26, 79-106):
  the 6x6 linear system built there decouples into two copies of the 3x3
  system `M [a,b,c]^T = dst_x`, `M [d,e,f]^T = dst_y` with
  `M = [[x1,y1,1],[x2,y2,1],[x3,y3,1]]` (rows of the 6x6 matrix `A`
  alternate between the two copies, so `det A = -(det M)^2`).
  `np.linalg.solve` raises `LinAlgError` exactly on a singular system, which
  in exact arithmetic is `det M = 0`; the embedding `affineInit` models
  `np.linalg.solve` by Cramer's rule guarded by `det M = 0`, and
  `np.linalg.inv` of the assembled affine matrix by the explicit 2x2-block
  inverse guarded by its determinant `a*e - b*d = 0`.
* `Affine.transform` (lines 27-56): for every pixel of the destination
  buffer selected by the rasterized destination-triangle mask, the inverse
  matrix maps the pixel's (x, y) to a source coordinate, the source buffer
  is sampled there by bilinear interpolation
  (`scipy.interpolate.interpn(..., bounds_error=False)`, which yields NaN
  outside the grid), the sample is rounded (`np.round`, half to even) and
  stored into the uint8 destination buffer.  A NaN sample is NOT skipped:
  line 56 assigns it together with the in-bounds ones, and the float->uint8
  cast turns NaN into a platform-defined byte (0 on the reference platform);
  the embedding threads that byte through as the parameter `nanByte`.
* `Affine._Mask` (lines 59-76): PIL's `ImageDraw.polygon(... fill, outline)`
  rasterization.  Modelled from the spec: "scan-fill polygon rule; boundary
  pixels included" - a pixel is masked iff its (x, y) lies inside or on the
  destination triangle (all three edge functions have a common sign).
* `Blender.__init__` (lines 112-123) stores the four inputs and computes
  `scipy.spatial.Delaunay(startPoints)` once.  Delaunay is external;
  modelled from the spec (section 4.1): it fails (QhullError) for fewer
  than 3 points or a fully collinear configuration and otherwise yields a
  list of index triples, embedded here as a fan triangulation (no claim
  depends on which triangles are produced, only on the stored list).
* `Blender.getBlendedImage` (lines 125-157): two zero-initialized
  intermediate buffers, a per-triangle warp of each source image toward the
  interpolated target points, then the cross-dissolve
  `((1 - alpha) * targetStart + alpha * targetEnd).astype('uint8')` -
  note `astype` truncates toward zero, it does not round.
* `Blender.generateMorphVideo` (lines 159-216) and `Blender._FrameName`
  (lines 218-221): the sequence of frame files written (a later write to
  the same name overwrites an earlier one), the Python `1.0 / ((L - 2) + 1)`
  that raises `ZeroDivisionError` when `L = 1`, and the reversed pass.

Pixel buffers hold natural numbers (uint8 values `< 256`); coordinates and
blend parameters are exact rationals.
-/

namespace Morphing

/-- A 2D point with rational coordinates (`np.float64` in the source). -/
abbrev Pt : Type := ℚ × ℚ

/-- A triangle given by its three vertices (a 3x2 array in the source). -/
abbrev Tri : Type := Pt × Pt × Pt

/-- A triangle of indices into a point list (`Delaunay.simplices` row). -/
abbrev Tri3 : Type := ℕ × ℕ × ℕ

/-- The failure modes of the embedded engine.  `singular` stands for
`numpy.linalg.LinAlgError` (raised by `np.linalg.solve` / `np.linalg.inv`),
`qhullError` for `scipy.spatial.qhull.QhullError`, `zeroDivisionError` for
Python's `ZeroDivisionError`.  `invalidSequenceLength` is the error the
spec's section 7 demands for `sequenceLength < 2`; the source never raises
it, it is included so that the corresponding claim is statable. -/
inductive MorphErr : Type where
  | singular : MorphErr
  | qhullError : MorphErr
  | zeroDivisionError : MorphErr
  | invalidSequenceLength : MorphErr
deriving DecidableEq

/-- A 2D affine map `(x, y) ↦ (a x + b y + c, d x + e y + f)`: the payload
of the 3x3 homogeneous matrix `[[a,b,c],[d,e,f],[0,0,1]]` assembled at
Morphing.py lines 100-102 (the bottom row is fixed). -/
structure Aff : Type where
  a : ℚ
  b : ℚ
  c : ℚ
  d : ℚ
  e : ℚ
  f : ℚ
deriving DecidableEq

/-- Apply an affine map to a point (matrix-vector product with `(x, y, 1)`,
Morphing.py line 44 uses it with the inverse matrix). -/
def applyAff (m : Aff) (p : Pt) : Pt :=
  (m.a * p.1 + m.b * p.2 + m.c, m.d * p.1 + m.e * p.2 + m.f)

/-- Determinant of a 3x3 matrix given by its nine entries. -/
def det3c (a b c d e f g h i : ℚ) : ℚ :=
  a * (e * i - f * h) - b * (d * i - f * g) + c * (d * h - e * g)

/-- Determinant of `[[p.x, p.y, 1], [q.x, q.y, 1], [r.x, r.y, 1]]`:
twice the signed area of the triangle `p q r`.  The 6x6 system of
`Affine._CreateMatrix` is singular exactly when this vanishes. -/
def tdet (p q r : Pt) : ℚ :=
  det3c p.1 p.2 1 q.1 q.2 1 r.1 r.2 1

/-- `tdet` of a packaged triangle. -/
def tdetT (t : Tri) : ℚ :=
  tdet t.1 t.2.1 t.2.2

/-- The solution of the 6x6 system of `Affine._CreateMatrix`
(Morphing.py lines 79-106) by Cramer's rule on its two decoupled 3x3
blocks; meaningful only when `tdetT src ≠ 0`. -/
def createMatrix (src dst : Tri) : Aff :=
  let dd := tdetT src
  { a := tdet (dst.1.1, src.1.2) (dst.2.1.1, src.2.1.2) (dst.2.2.1, src.2.2.2) / dd
    b := tdet (src.1.1, dst.1.1) (src.2.1.1, dst.2.1.1) (src.2.2.1, dst.2.2.1) / dd
    c := det3c src.1.1 src.1.2 dst.1.1 src.2.1.1 src.2.1.2 dst.2.1.1
           src.2.2.1 src.2.2.2 dst.2.2.1 / dd
    d := tdet (dst.1.2, src.1.2) (dst.2.1.2, src.2.1.2) (dst.2.2.2, src.2.2.2) / dd
    e := tdet (src.1.1, dst.1.2) (src.2.1.1, dst.2.1.2) (src.2.2.1, dst.2.2.2) / dd
    f := det3c src.1.1 src.1.2 dst.1.2 src.2.1.1 src.2.1.2 dst.2.1.2
           src.2.2.1 src.2.2.2 dst.2.2.2 / dd }

/-- Determinant of the linear part of an affine map; `np.linalg.inv` at
Morphing.py line 25 fails exactly when it vanishes. -/
def adet (m : Aff) : ℚ :=
  m.a * m.e - m.b * m.d

/-- Inverse of the homogeneous matrix `[[a,b,c],[d,e,f],[0,0,1]]`
(`np.linalg.inv`, Morphing.py line 25); meaningful only when
`adet m ≠ 0`. -/
def inv3 (m : Aff) : Aff :=
  let dt := adet m
  { a := m.e / dt
    b := -m.b / dt
    c := (m.b * m.f - m.c * m.e) / dt
    d := -m.d / dt
    e := m.a / dt
    f := (m.c * m.d - m.a * m.f) / dt }

/-- The state of a constructed `Affine` instance (Morphing.py lines 22-25):
the two triangles and the forward and inverse matrices. -/
structure AffineT : Type where
  source : Tri
  destination : Tri
  matrix : Aff
  inverseMatrix : Aff

/-- `Affine.__init__` (Morphing.py lines 13-25): solve for the forward
matrix (`np.linalg.solve` raises on the singular system, i.e. on a
degenerate source triangle) and invert it (`np.linalg.inv` raises when the
affine matrix itself is singular, i.e. on a degenerate destination
triangle). -/
def affineInit (source destination : Tri) : Except MorphErr AffineT :=
  if tdetT source = 0 then .error .singular
  else
    let m := createMatrix source destination
    if adet m = 0 then .error .singular
    else .ok ⟨source, destination, m, inv3 m⟩

/-- A pixel buffer: height, width and a (total) pixel function; in-range
values are uint8 (`< 256`).  `pix y x` is row `y`, column `x`, matching
`npArray[row, col]`. -/
structure Img : Type where
  height : ℕ
  width : ℕ
  pix : ℕ → ℕ → ℕ

/-- `Image.new('L', (width, height), 0)` (Morphing.py lines 131-132):
an all-zero buffer. -/
def blankImg (h w : ℕ) : Img :=
  ⟨h, w, fun _ _ => 0⟩

/-- Edge function: the cross product `(q - p) × (s - p)`; its sign tells
on which side of the directed edge `p → q` the point `s` lies. -/
def edgeFn (p q s : Pt) : ℚ :=
  (q.1 - p.1) * (s.2 - p.2) - (q.2 - p.2) * (s.1 - p.1)

/-- `Affine._Mask` (Morphing.py lines 59-76).  Modelled from the spec:
"rasterizes the destination triangle into a fill mask (scan-fill polygon
rule; boundary pixels included)" - the pixel at column `x`, row `y` is
masked iff the point `(x, y)` lies inside or on the triangle, i.e. the
three edge functions share a sign.  (The source uses PIL's
`ImageDraw.polygon(vertices, outline=255, fill=255)`, an external
library.) -/
def maskTri (t : Tri) (x y : ℕ) : Bool :=
  let s : Pt := ((x : ℚ), (y : ℚ))
  let e1 := edgeFn t.1 t.2.1 s
  let e2 := edgeFn t.2.1 t.2.2 s
  let e3 := edgeFn t.2.2 t.1 s
  decide ((0 ≤ e1 ∧ 0 ≤ e2 ∧ 0 ≤ e3) ∨ (e1 ≤ 0 ∧ e2 ≤ 0 ∧ e3 ≤ 0))

/-- Bilinear interpolation of a buffer at the (row, column) coordinate
`(ys, xs)`: `scipy.interpolate.interpn` on the grid
`(np.arange(h), np.arange(w))` with `bounds_error=False` (Morphing.py
lines 50-52), which returns NaN - here `none` - outside the grid. -/
def interp2 (img : Img) (ys xs : ℚ) : Option ℚ :=
  if ys < 0 ∨ (img.height : ℚ) - 1 < ys ∨ xs < 0 ∨ (img.width : ℚ) - 1 < xs then
    none
  else
    let i := min (⌊ys⌋.toNat) (img.height - 2)
    let j := min (⌊xs⌋.toNat) (img.width - 2)
    let ty := ys - (i : ℚ)
    let tx := xs - (j : ℚ)
    some ((1 - ty) * (1 - tx) * (img.pix i j : ℚ)
        + (1 - ty) * tx * (img.pix i (j + 1) : ℚ)
        + ty * (1 - tx) * (img.pix (i + 1) j : ℚ)
        + ty * tx * (img.pix (i + 1) (j + 1) : ℚ))

/-- `np.round`: round half to even (banker's rounding), used at
Morphing.py line 56. -/
def roundHalfEven (q : ℚ) : ℤ :=
  let fl := ⌊q⌋
  let r := q - (fl : ℚ)
  if r < 1 / 2 then fl
  else if 1 / 2 < r then fl + 1
  else if fl % 2 = 0 then fl else fl + 1

/-- Storing an integer into a uint8 numpy buffer: reduce mod 256. -/
def toU8 (z : ℤ) : ℕ :=
  (z % 256).toNat

/-- `Affine.transform` (Morphing.py lines 27-56) as a pure function from
the destination buffer to the updated destination buffer.  Every masked
pixel is assigned: an in-bounds sample is rounded (`np.round`) and cast to
uint8; an out-of-bounds sample is NaN and the float->uint8 cast stores the
platform byte `nanByte`.  Unmasked pixels keep their value. -/
def transform (nanByte : ℕ) (A : AffineT) (sourceImage destinationImage : Img) : Img :=
  { destinationImage with
    pix := fun y x =>
      if y < destinationImage.height ∧ x < destinationImage.width ∧
          maskTri A.destination x y = true then
        let s := applyAff A.inverseMatrix ((x : ℚ), (y : ℚ))
        match interp2 sourceImage s.2 s.1 with
        | some v => toU8 (roundHalfEven v)
        | none => nanByte % 256
      else destinationImage.pix y x }

/-- The state stored by `Blender.__init__` (Morphing.py lines 117-123):
the two images, the two point lists and the triangulation computed once
from the start points (`self.triangles.simplices`). -/
structure Session : Type where
  startImage : Img
  startPoints : List Pt
  endImage : Img
  endPoints : List Pt
  simplices : List Tri3

/-- `targetPoints = (1 - alpha) * self.startPoints + alpha * self.endPoints`
(Morphing.py line 128), elementwise over corresponding points. -/
def interpPoints (alpha : ℚ) (sp ep : List Pt) : List Pt :=
  List.zipWith
    (fun p q => ((1 - alpha) * p.1 + alpha * q.1, (1 - alpha) * p.2 + alpha * q.2))
    sp ep

/-- Select the triangle of a point list named by an index triple
(Morphing.py lines 138-149); an out-of-range index defaults to the
origin (valid sessions never hit the default). -/
def triOf (pts : List Pt) (t : Tri3) : Tri :=
  (pts.getD t.1 (0, 0), pts.getD t.2.1 (0, 0), pts.getD t.2.2 (0, 0))

/-- One iteration of the triangle loop of `Blender.getBlendedImage`
(Morphing.py lines 135-153): construct the two affine transforms toward
the target triangle and warp each source image into its intermediate
buffer. -/
def warpPair (nanByte : ℕ) (s : Session) (tp : List Pt) (acc : Img × Img)
    (t : Tri3) : Except MorphErr (Img × Img) := do
  let A1 ← affineInit (triOf s.startPoints t) (triOf tp t)
  let ts := transform nanByte A1 s.startImage acc.1
  let A2 ← affineInit (triOf s.endPoints t) (triOf tp t)
  pure (ts, transform nanByte A2 s.endImage acc.2)

/-- Truncation toward zero, the behaviour of numpy's float->integer
`astype` cast. -/
def truncTowardZero (q : ℚ) : ℤ :=
  if q < 0 then -⌊-q⌋ else ⌊q⌋

/-- `((1 - alpha) * targetStart + alpha * targetEnd).astype(dtype='uint8')`
(Morphing.py line 157): the per-pixel weighted sum truncated (not rounded)
to uint8. -/
def crossDissolve (alpha : ℚ) (ts te : Img) : Img :=
  ⟨ts.height, ts.width, fun y x =>
    toU8 (truncTowardZero ((1 - alpha) * (ts.pix y x : ℚ) + alpha * (te.pix y x : ℚ)))⟩

/-- `Blender.getBlendedImage` (Morphing.py lines 125-157): interpolate the
target points, fold the per-triangle warps over the stored simplices
starting from two blank buffers, then cross-dissolve. -/
def getBlendedImage (nanByte : ℕ) (s : Session) (alpha : ℚ) : Except MorphErr Img := do
  let tp := interpPoints alpha s.startPoints s.endPoints
  let r ← s.simplices.foldlM (warpPair nanByte s tp)
    (blankImg s.startImage.height s.startImage.width,
     blankImg s.endImage.height s.endImage.width)
  pure (crossDissolve alpha r.1 r.2)

/-- The pixel of a blended frame at `(row y, column x)`, `none` when the
blend raised. -/
def blendPix (nanByte : ℕ) (s : Session) (alpha : ℚ) (y x : ℕ) : Option ℕ :=
  match getBlendedImage nanByte s alpha with
  | .ok img => some (img.pix y x)
  | .error _ => none

/-- Whether some triangle of the list, read against the point list `pts`,
masks the pixel at column `x`, row `y`. -/
def coveredBy (tris : List Tri3) (pts : List Pt) (x y : ℕ) : Bool :=
  tris.any fun t => maskTri (triOf pts t) x y

/-- Whether every triple of points of the list is collinear (the fully
degenerate configurations for which no triangulation exists). -/
def allCollinear (pts : List Pt) : Prop :=
  ∀ p ∈ pts, ∀ q ∈ pts, ∀ r ∈ pts, tdet p q r = 0

instance allCollinearDec (pts : List Pt) : Decidable (allCollinear pts) := by
  unfold allCollinear
  infer_instance

/-- Modelled from the spec: `scipy.spatial.Delaunay` (Morphing.py
line 123) is an external library; per spec section 4.1 it fails for fewer
than 3 points or a fully degenerate (collinear) set and otherwise produces
a list of index triples, embedded as a fan (no claim depends on which
triangulation is produced, only on the stored list of triples). -/
def delaunayTriangulation (pts : List Pt) : Except MorphErr (List Tri3) :=
  if pts.length < 3 then .error .qhullError
  else if allCollinear pts then .error .qhullError
  else .ok ((List.range (pts.length - 2)).map fun i => ((0, i + 1, i + 2) : Tri3))

/-- `Blender.__init__` (Morphing.py lines 112-123): beyond checking that
the four inputs are numpy arrays (a typing fact that the embedding carries
in its types), the constructor performs no validation; it stores the
inputs and computes the triangulation of the start points once.  The end
points are never examined. -/
def blenderInit (startImage : Img) (startPoints : List Pt) (endImage : Img)
    (endPoints : List Pt) : Except MorphErr Session :=
  (delaunayTriangulation startPoints).map fun tris =>
    ⟨startImage, startPoints, endImage, endPoints, tris⟩

/-- Left-pad a digit string with zeros to the given width. -/
def padZeros (k : ℕ) (s : String) : String :=
  String.mk (List.replicate (k - s.length) '0') ++ s

/-- `Blender._FrameName` (Morphing.py lines 218-221):
`'frame{:03d}.jpg'.format(number)` - the number zero-padded to field
width 3 (the sign, when present, counts toward the width). -/
def frameName (number : ℤ) : String :=
  if number < 0 then "frame-" ++ padZeros 2 (toString (-number)) ++ ".jpg"
  else "frame" ++ padZeros 3 (toString number) ++ ".jpg"

/-- One file write performed by `Blender._SaveImage`: the file name and
the image stored under it. -/
structure WriteEvent : Type where
  name : String
  image : Img

/-- The intermediate-frame loop of `Blender.generateMorphVideo`
(Morphing.py lines 182-191): `k` iterations remain, `i` is the loop
counter, `alpha` the accumulated blend parameter.  Iteration `i` computes
`alpha += increment`, blends, and saves the frame as
`_FrameName(i + 1)`; a blend failure aborts the loop (the Python
exception propagates). -/
def interFrames (nanByte : ℕ) (s : Session) (inc : ℚ) :
    ℕ → ℕ → ℚ → List WriteEvent × Option MorphErr
  | 0, _, _ => ([], none)
  | k + 1, i, alpha =>
    let a := alpha + inc
    match getBlendedImage nanByte s a with
    | .error e => ([], some e)
    | .ok img =>
      let rest := interFrames nanByte s inc k (i + 1) a
      (⟨frameName ((i : ℤ) + 1), img⟩ :: rest.1, rest.2)

/-- The reversed pass of `Blender.generateMorphVideo` (Morphing.py lines
198-206): save the given images under consecutive sequence numbers
starting at `seqNum`. -/
def revWrites (seqNum : ℤ) : List Img → List WriteEvent
  | [] => []
  | img :: rest => ⟨frameName seqNum, img⟩ :: revWrites (seqNum + 1) rest

/-- `Blender.generateMorphVideo` (Morphing.py lines 159-216) as the
sequence of frame-file writes it performs, in order, paired with the
error aborting it (if any).  The start image is saved as frame 1; then
`increment = 1.0 / ((sequenceLength - 2) + 1)` - a `ZeroDivisionError`
when `sequenceLength = 1` - then `sequenceLength - 2` intermediate frames
(an empty range when `sequenceLength ≤ 2`), the end image as frame
`sequenceLength`, and, when `includeReversed`, the collected images again
in reverse order numbered from `sequenceLength + 1`.  The trailing video
encoding reads the written files back and appends them to `morph.mp4` in
file-list order; it is an external side effect not modelled here. -/
def generateMorphVideo (nanByte : ℕ) (s : Session) (sequenceLength : ℤ)
    (includeReversed : Bool) : List WriteEvent × Option MorphErr :=
  let w1 : List WriteEvent := [⟨frameName 1, s.startImage⟩]
  if (sequenceLength - 2) + 1 = 0 then (w1, some .zeroDivisionError)
  else
    let inc : ℚ := 1 / (((sequenceLength : ℚ) - 2) + 1)
    let inter := interFrames nanByte s inc (sequenceLength - 2).toNat 0 0
    match inter.2 with
    | some e => (w1 ++ inter.1, some e)
    | none =>
      let w2 := w1 ++ inter.1 ++ [⟨frameName sequenceLength, s.endImage⟩]
      if includeReversed then
        let imageList := s.startImage :: (inter.1.map (·.image) ++ [s.endImage])
        (w2 ++ revWrites (sequenceLength + 1) imageList.reverse, none)
      else (w2, none)

/-- The content a file name holds after a list of writes (a later write
overwrites an earlier one), `none` when the name was never written. -/
def fsLookup (ws : List WriteEvent) (name : String) : Option Img :=
  ws.foldl (fun acc w => if w.name = name then some w.image else acc) none

/-- A 3x3 constant-200 grayscale start image. -/
def img200 : Img := ⟨3, 3, fun _ _ => 200⟩

/-- A 3x3 all-zero grayscale end image. -/
def img0 : Img := ⟨3, 3, fun _ _ => 0⟩

/-- A 3x3 constant-255 grayscale image. -/
def img255 : Img := ⟨3, 3, fun _ _ => 255⟩

/-- Landmarks `(0,0), (2,0), (0,2)` - one non-degenerate triangle whose
mask covers the pixels with `x + y ≤ 2` of a 3x3 buffer. -/
def ptsBig : List Pt := [(0, 0), (2, 0), (0, 2)]

/-- Landmarks `(0,0), (1,0), (0,1)` - one small non-degenerate triangle
whose mask covers only the three pixels `(0,0), (1,0), (0,1)`. -/
def ptsSmall : List Pt := [(0, 0), (1, 0), (0, 1)]

/-- A session blending the constant-200 start image toward the all-zero
end image with identical landmark sets (so every warp is an identity
warp at every alpha). -/
def sessBig : Session := ⟨img200, ptsBig, img0, ptsBig, [(0, 1, 2)]⟩

/-- A session whose single triangle covers only three pixels of the 3x3
constant-255 start image, leaving pixel `(2,2)` outside every mask. -/
def sessSmall : Session := ⟨img255, ptsSmall, img0, ptsSmall, [(0, 1, 2)]⟩


/-- The identity affine map. -/
def idAff : Aff := ⟨1, 0, 0, 0, 1, 0⟩

lemma adet_createMatrix (S D : Tri) (hS : tdetT S ≠ 0) :
    adet (createMatrix S D) * tdetT S = tdetT D := by
  obtain ⟨⟨x1, y1⟩, ⟨x2, y2⟩, ⟨x3, y3⟩⟩ := S
  obtain ⟨⟨u1, v1⟩, ⟨u2, v2⟩, ⟨u3, v3⟩⟩ := D
  simp only [adet, createMatrix, tdetT, tdet, det3c] at hS ⊢
  rw [div_mul_div_comm, div_mul_div_comm, div_sub_div_same, div_mul_eq_mul_div,
    div_eq_iff (mul_ne_zero hS hS)]
  ring

lemma affineInit_ok (S D : Tri) (hS : tdetT S ≠ 0) (hD : tdetT D ≠ 0) :
    affineInit S D = .ok ⟨S, D, createMatrix S D, inv3 (createMatrix S D)⟩ := by
  have had : adet (createMatrix S D) ≠ 0 := by
    intro h0
    exact hD (by rw [← adet_createMatrix S D hS, h0, zero_mul])
  simp [affineInit, hS, had]

lemma createMatrix_id (T : Tri) (h : tdetT T ≠ 0) : createMatrix T T = idAff := by
  obtain ⟨⟨x1, y1⟩, ⟨x2, y2⟩, ⟨x3, y3⟩⟩ := T
  simp only [createMatrix, idAff, tdetT, tdet, det3c] at h ⊢
  rw [Aff.mk.injEq]
  refine ⟨?_, ?_, ?_, ?_, ?_, ?_⟩ <;> (rw [div_eq_iff h]; ring)

lemma inv3_id : inv3 idAff = idAff := by
  simp [inv3, idAff, adet]

lemma affineInit_id (T : Tri) (h : tdetT T ≠ 0) :
    affineInit T T = .ok ⟨T, T, idAff, idAff⟩ := by
  rw [affineInit_ok T T h h, createMatrix_id T h, inv3_id]

lemma applyAff_id (p : Pt) : applyAff idAff p = p := by
  simp [applyAff, idAff]

lemma createMatrix_maps_vertices (S D : Tri) (hS : tdetT S ≠ 0) :
    applyAff (createMatrix S D) S.1 = D.1 ∧
    applyAff (createMatrix S D) S.2.1 = D.2.1 ∧
    applyAff (createMatrix S D) S.2.2 = D.2.2 := by
  obtain ⟨⟨x1, y1⟩, ⟨x2, y2⟩, ⟨x3, y3⟩⟩ := S
  obtain ⟨⟨u1, v1⟩, ⟨u2, v2⟩, ⟨u3, v3⟩⟩ := D
  simp only [applyAff, createMatrix, tdetT, tdet, det3c] at hS ⊢
  refine ⟨?_, ?_, ?_⟩ <;> (rw [Prod.mk.injEq]; constructor) <;>
    (rw [div_mul_eq_mul_div, div_mul_eq_mul_div, div_add_div_same, div_add_div_same,
      div_eq_iff hS]; ring)

lemma applyAff_inv3 (m : Aff) (h : adet m ≠ 0) (p : Pt) :
    applyAff (inv3 m) (applyAff m p) = p := by
  obtain ⟨a, b, c, d, e, f⟩ := m
  obtain ⟨px, py⟩ := p
  simp only [applyAff, inv3, adet] at h ⊢
  rw [Prod.mk.injEq]
  constructor <;> (field_simp; ring)

lemma roundHalfEven_natCast (n : ℕ) : roundHalfEven (n : ℚ) = n := by
  simp [roundHalfEven]

lemma toU8_natCast_of_lt (n : ℕ) (h : n < 256) : toU8 (n : ℤ) = n := by
  rw [toU8, Int.emod_eq_of_lt (Int.ofNat_nonneg n) (by exact_mod_cast h)]
  exact Int.toNat_natCast n

lemma truncTowardZero_natCast (n : ℕ) : truncTowardZero (n : ℚ) = n := by
  simp [truncTowardZero]

lemma interp2_int (img : Img) (hH : 2 ≤ img.height) (hW : 2 ≤ img.width)
    (y x : ℕ) (hy : y < img.height) (hx : x < img.width) :
    interp2 img (y : ℚ) (x : ℚ) = some ((img.pix y x : ℚ)) := by
  have hy1 : ((y : ℚ)) ≤ (img.height : ℚ) - 1 := by
    have h1 : (y : ℚ) + 1 ≤ (img.height : ℚ) := by exact_mod_cast Nat.succ_le_of_lt hy
    linarith
  have hx1 : ((x : ℚ)) ≤ (img.width : ℚ) - 1 := by
    have h1 : (x : ℚ) + 1 ≤ (img.width : ℚ) := by exact_mod_cast Nat.succ_le_of_lt hx
    linarith
  have hyfl : (⌊(y : ℚ)⌋).toNat = y := by
    rw [Int.floor_natCast]
    exact Int.toNat_natCast y
  have hxfl : (⌊(x : ℚ)⌋).toNat = x := by
    rw [Int.floor_natCast]
    exact Int.toNat_natCast x
  simp only [interp2, hyfl, hxfl]
  rw [if_neg (by push_neg; exact ⟨by positivity, hy1, by positivity, hx1⟩)]
  rcases le_or_lt y (img.height - 2) with hc1 | hc1
  · rw [min_eq_left hc1]
    rcases le_or_lt x (img.width - 2) with hc2 | hc2
    · rw [min_eq_left hc2]
      norm_num
    · have hxw : x = img.width - 1 := by omega
      rw [min_eq_right (by omega)]
      have hcast : ((img.width - 2 : ℕ) : ℚ) = (img.width : ℚ) - 2 := by
        have h2 : ((2 : ℕ) : ℚ) ≤ (img.width : ℚ) := by exact_mod_cast hW
        push_cast [Nat.cast_sub hW]
        ring
      have htx : (x : ℚ) - ((img.width - 2 : ℕ) : ℚ) = 1 := by
        rw [hcast, hxw]
        push_cast [Nat.cast_sub (by omega : 1 ≤ img.width)]
        ring
      have hj1 : img.width - 2 + 1 = x := by omega
      rw [htx, hj1]
      norm_num
  · have hyh : y = img.height - 1 := by omega
    rw [min_eq_right (by omega)]
    have hty : (y : ℚ) - ((img.height - 2 : ℕ) : ℚ) = 1 := by
      have h2 : ((2 : ℕ) : ℚ) ≤ (img.height : ℚ) := by exact_mod_cast hH
      rw [hyh]
      push_cast [Nat.cast_sub hH, Nat.cast_sub (by omega : 1 ≤ img.height)]
      ring
    have hi1 : img.height - 2 + 1 = y := by omega
    rcases le_or_lt x (img.width - 2) with hc2 | hc2
    · rw [min_eq_left hc2, hty, hi1]
      norm_num
    · have hxw : x = img.width - 1 := by omega
      rw [min_eq_right (by omega)]
      have htx : (x : ℚ) - ((img.width - 2 : ℕ) : ℚ) = 1 := by
        have h2 : ((2 : ℕ) : ℚ) ≤ (img.width : ℚ) := by exact_mod_cast hW
        rw [hxw]
        push_cast [Nat.cast_sub hW, Nat.cast_sub (by omega : 1 ≤ img.width)]
        ring
      have hj1 : img.width - 2 + 1 = x := by omega
      rw [htx, hty, hi1, hj1]
      norm_num

lemma transform_height (nanByte : ℕ) (A : AffineT) (src dst : Img) :
    (transform nanByte A src dst).height = dst.height := rfl

lemma transform_width (nanByte : ℕ) (A : AffineT) (src dst : Img) :
    (transform nanByte A src dst).width = dst.width := rfl

lemma transform_pix_unmasked (nanByte : ℕ) (A : AffineT) (src dst : Img) (y x : ℕ)
    (h : ¬(y < dst.height ∧ x < dst.width ∧ maskTri A.destination x y = true)) :
    (transform nanByte A src dst).pix y x = dst.pix y x := by
  simp only [transform, if_neg h]

lemma transform_pix_nan (nanByte : ℕ) (A : AffineT) (src dst : Img) (y x : ℕ)
    (hy : y < dst.height) (hx : x < dst.width)
    (hm : maskTri A.destination x y = true)
    (hnone : interp2 src (applyAff A.inverseMatrix ((x : ℚ), (y : ℚ))).2
      (applyAff A.inverseMatrix ((x : ℚ), (y : ℚ))).1 = none) :
    (transform nanByte A src dst).pix y x = nanByte % 256 := by
  simp only [transform, if_pos (And.intro hy (And.intro hx hm)), hnone]

lemma transform_pix_id (nanByte : ℕ) (A : AffineT) (src dst : Img) (y x : ℕ)
    (hA : A.inverseMatrix = idAff)
    (hH : 2 ≤ src.height) (hW : 2 ≤ src.width)
    (hdh : dst.height = src.height) (hdw : dst.width = src.width)
    (hy : y < dst.height) (hx : x < dst.width)
    (hm : maskTri A.destination x y = true)
    (hv : src.pix y x < 256) :
    (transform nanByte A src dst).pix y x = src.pix y x := by
  have hys : y < src.height := hdh ▸ hy
  have hxs : x < src.width := hdw ▸ hx
  simp only [transform, if_pos (And.intro hy (And.intro hx hm)), hA, applyAff_id]
  rw [interp2_int src hH hW y x hys hxs]
  show toU8 (roundHalfEven ((src.pix y x : ℚ))) = src.pix y x
  rw [roundHalfEven_natCast, toU8_natCast_of_lt _ hv]

lemma interpPoints_self (al : ℚ) (sp : List Pt) : interpPoints al sp sp = sp := by
  induction sp with
  | nil => rfl
  | cons p ps ih =>
    simp only [interpPoints, List.zipWith_cons_cons] at ih ⊢
    rw [ih]
    congr 1
    obtain ⟨a, b⟩ := p
    rw [Prod.mk.injEq]
    constructor <;> ring

lemma interpPoints_zero (sp ep : List Pt) (h : ep.length = sp.length) :
    interpPoints 0 sp ep = sp := by
  induction sp generalizing ep with
  | nil => rfl
  | cons p ps ih =>
    cases ep with
    | nil => simp at h
    | cons q qs =>
      simp only [interpPoints, List.zipWith_cons_cons] at ih ⊢
      rw [ih qs (by simpa using h)]
      congr 1
      obtain ⟨a, b⟩ := p
      rw [Prod.mk.injEq]
      constructor <;> ring

lemma interpPoints_one (sp ep : List Pt) (h : ep.length = sp.length) :
    interpPoints 1 sp ep = ep := by
  induction sp generalizing ep with
  | nil =>
    cases ep with
    | nil => rfl
    | cons q qs => simp at h
  | cons p ps ih =>
    cases ep with
    | nil => simp at h
    | cons q qs =>
      simp only [interpPoints, List.zipWith_cons_cons] at ih ⊢
      rw [ih qs (by simpa using h)]
      congr 1
      obtain ⟨a, b⟩ := q
      rw [Prod.mk.injEq]
      constructor <;> ring

lemma warpPair_step (n : ℕ) (s : Session) (tp : List Pt) (t : Tri3) (A1 A2 : AffineT)
    (h1 : affineInit (triOf s.startPoints t) (triOf tp t) = .ok A1)
    (h2 : affineInit (triOf s.endPoints t) (triOf tp t) = .ok A2) (acc : Img × Img) :
    warpPair n s tp acc t =
      .ok (transform n A1 s.startImage acc.1, transform n A2 s.endImage acc.2) := by
  simp only [warpPair, h1, h2]
  rfl

lemma coveredBy_cons (t : Tri3) (ts : List Tri3) (pts : List Pt) (x y : ℕ) :
    coveredBy (t :: ts) pts x y = (maskTri (triOf pts t) x y || coveredBy ts pts x y) := by
  simp [coveredBy]

lemma foldWarp_start (n : ℕ) (s : Session) (tris : List Tri3)
    (htris : ∀ t ∈ tris, tdetT (triOf s.startPoints t) ≠ 0 ∧ tdetT (triOf s.endPoints t) ≠ 0)
    (hH : 2 ≤ s.startImage.height) (hW : 2 ≤ s.startImage.width)
    (hv : ∀ y x, s.startImage.pix y x < 256) :
    ∀ acc : Img × Img,
      acc.1.height = s.startImage.height → acc.1.width = s.startImage.width →
      ∃ r : Img × Img,
        List.foldlM (warpPair n s s.startPoints) acc tris = Except.ok r
        ∧ r.1.height = acc.1.height ∧ r.1.width = acc.1.width
        ∧ r.2.height = acc.2.height ∧ r.2.width = acc.2.width
        ∧ ∀ y x, y < s.startImage.height → x < s.startImage.width →
            r.1.pix y x =
              if coveredBy tris s.startPoints x y = true then s.startImage.pix y x
              else acc.1.pix y x := by
  induction tris with
  | nil =>
    intro acc h1 h2
    refine ⟨acc, rfl, rfl, rfl, rfl, rfl, fun y x hy hx => ?_⟩
    simp [coveredBy]
  | cons t ts ih =>
    intro acc h1 h2
    obtain ⟨hds, hde⟩ := htris t (List.mem_cons_self t ts)
    have hA1 := affineInit_id (triOf s.startPoints t) hds
    have hA2 := affineInit_ok (triOf s.endPoints t) (triOf s.startPoints t) hde hds
    have hstep := warpPair_step n s s.startPoints t _ _ hA1 hA2 acc
    rw [List.foldlM_cons, hstep]
    have hih := ih (fun u hu => htris u (List.mem_cons_of_mem t hu))
      (transform n ⟨triOf s.startPoints t, triOf s.startPoints t, idAff, idAff⟩
         s.startImage acc.1,
       transform n
         ⟨triOf s.endPoints t, triOf s.startPoints t,
          createMatrix (triOf s.endPoints t) (triOf s.startPoints t),
          inv3 (createMatrix (triOf s.endPoints t) (triOf s.startPoints t))⟩
         s.endImage acc.2)
      (by simpa [transform_height] using h1) (by simpa [transform_width] using h2)
    obtain ⟨r, hr, rh1, rw1, rh2, rw2, hpix⟩ := hih
    refine ⟨r, ?_, ?_, ?_, ?_, ?_, ?_⟩
    · simpa using hr
    · simpa [transform_height] using rh1
    · simpa [transform_width] using rw1
    · simpa [transform_height] using rh2
    · simpa [transform_width] using rw2
    · intro y x hy hx
      have hyacc : y < acc.1.height := by rw [h1]; exact hy
      have hxacc : x < acc.1.width := by rw [h2]; exact hx
      rw [hpix y x hy hx, coveredBy_cons]
      cases hmv : maskTri (triOf s.startPoints t) x y with
      | true =>
        have hid := transform_pix_id n
          ⟨triOf s.startPoints t, triOf s.startPoints t, idAff, idAff⟩
          s.startImage acc.1 y x rfl hH hW h1 h2 hyacc hxacc hmv (hv y x)
        cases hcv : coveredBy ts s.startPoints x y with
        | true => simp [hid]
        | false => simp [hid]
      | false =>
        have hun := transform_pix_unmasked n
          ⟨triOf s.startPoints t, triOf s.startPoints t, idAff, idAff⟩
          s.startImage acc.1 y x (fun hcon => by simp [hmv] at hcon)
        cases hcv : coveredBy ts s.startPoints x y with
        | true => simp [hun]
        | false => simp [hun]

lemma foldWarp_end (n : ℕ) (s : Session) (tris : List Tri3)
    (htris : ∀ t ∈ tris, tdetT (triOf s.startPoints t) ≠ 0 ∧ tdetT (triOf s.endPoints t) ≠ 0)
    (hH : 2 ≤ s.endImage.height) (hW : 2 ≤ s.endImage.width)
    (hv : ∀ y x, s.endImage.pix y x < 256) :
    ∀ acc : Img × Img,
      acc.2.height = s.endImage.height → acc.2.width = s.endImage.width →
      ∃ r : Img × Img,
        List.foldlM (warpPair n s s.endPoints) acc tris = Except.ok r
        ∧ r.1.height = acc.1.height ∧ r.1.width = acc.1.width
        ∧ r.2.height = acc.2.height ∧ r.2.width = acc.2.width
        ∧ ∀ y x, y < s.endImage.height → x < s.endImage.width →
            r.2.pix y x =
              if coveredBy tris s.endPoints x y = true then s.endImage.pix y x
              else acc.2.pix y x := by
  induction tris with
  | nil =>
    intro acc h1 h2
    refine ⟨acc, rfl, rfl, rfl, rfl, rfl, fun y x hy hx => ?_⟩
    simp [coveredBy]
  | cons t ts ih =>
    intro acc h1 h2
    obtain ⟨hds, hde⟩ := htris t (List.mem_cons_self t ts)
    have hA2 := affineInit_id (triOf s.endPoints t) hde
    have hA1 := affineInit_ok (triOf s.startPoints t) (triOf s.endPoints t) hds hde
    have hstep := warpPair_step n s s.endPoints t _ _ hA1 hA2 acc
    rw [List.foldlM_cons, hstep]
    have hih := ih (fun u hu => htris u (List.mem_cons_of_mem t hu))
      (transform n
         ⟨triOf s.startPoints t, triOf s.endPoints t,
          createMatrix (triOf s.startPoints t) (triOf s.endPoints t),
          inv3 (createMatrix (triOf s.startPoints t) (triOf s.endPoints t))⟩
         s.startImage acc.1,
       transform n ⟨triOf s.endPoints t, triOf s.endPoints t, idAff, idAff⟩
         s.endImage acc.2)
      (by simpa [transform_height] using h1) (by simpa [transform_width] using h2)
    obtain ⟨r, hr, rh1, rw1, rh2, rw2, hpix⟩ := hih
    refine ⟨r, ?_, ?_, ?_, ?_, ?_, ?_⟩
    · simpa using hr
    · simpa [transform_height] using rh1
    · simpa [transform_width] using rw1
    · simpa [transform_height] using rh2
    · simpa [transform_width] using rw2
    · intro y x hy hx
      have hyacc : y < acc.2.height := by rw [h1]; exact hy
      have hxacc : x < acc.2.width := by rw [h2]; exact hx
      rw [hpix y x hy hx, coveredBy_cons]
      cases hmv : maskTri (triOf s.endPoints t) x y with
      | true =>
        have hid := transform_pix_id n
          ⟨triOf s.endPoints t, triOf s.endPoints t, idAff, idAff⟩
          s.endImage acc.2 y x rfl hH hW h1 h2 hyacc hxacc hmv (hv y x)
        cases hcv : coveredBy ts s.endPoints x y with
        | true => simp [hid]
        | false => simp [hid]
      | false =>
        have hun := transform_pix_unmasked n
          ⟨triOf s.endPoints t, triOf s.endPoints t, idAff, idAff⟩
          s.endImage acc.2 y x (fun hcon => by simp [hmv] at hcon)
        cases hcv : coveredBy ts s.endPoints x y with
        | true => simp [hun]
        | false => simp [hun]

lemma crossDissolve_pix (al : ℚ) (ts te : Img) (y x : ℕ) :
    (crossDissolve al ts te).pix y x =
      toU8 (truncTowardZero ((1 - al) * (ts.pix y x : ℚ) + al * (te.pix y x : ℚ))) := rfl

lemma truncTowardZero_zero : truncTowardZero 0 = 0 := by
  simp [truncTowardZero]

lemma toU8_zero : toU8 0 = 0 := rfl

lemma blankImg_pix (h w y x : ℕ) : (blankImg h w).pix y x = 0 := rfl

lemma getBlendedImage_eq (n : ℕ) (s : Session) (al : ℚ) (r : Img × Img)
    (hfold : s.simplices.foldlM (warpPair n s (interpPoints al s.startPoints s.endPoints))
      (blankImg s.startImage.height s.startImage.width,
       blankImg s.endImage.height s.endImage.width) = Except.ok r) :
    getBlendedImage n s al = .ok (crossDissolve al r.1 r.2) := by
  simp only [getBlendedImage, hfold]
  rfl

lemma getBlendedImage_zero (n : ℕ) (s : Session)
    (hlen : s.endPoints.length = s.startPoints.length)
    (htris : ∀ t ∈ s.simplices,
      tdetT (triOf s.startPoints t) ≠ 0 ∧ tdetT (triOf s.endPoints t) ≠ 0)
    (hH : 2 ≤ s.startImage.height) (hW : 2 ≤ s.startImage.width)
    (hv : ∀ y x, s.startImage.pix y x < 256) :
    ∃ out, getBlendedImage n s 0 = .ok out ∧
      ∀ y x, y < s.startImage.height → x < s.startImage.width →
        out.pix y x =
          if coveredBy s.simplices s.startPoints x y = true
          then s.startImage.pix y x else 0 := by
  have htp : interpPoints 0 s.startPoints s.endPoints = s.startPoints :=
    interpPoints_zero _ _ hlen
  obtain ⟨r, hr, rh1, rw1, rh2, rw2, hpix⟩ := foldWarp_start n s s.simplices htris hH hW hv
    (blankImg s.startImage.height s.startImage.width,
     blankImg s.endImage.height s.endImage.width) rfl rfl
  refine ⟨crossDissolve 0 r.1 r.2, getBlendedImage_eq n s 0 r (by rw [htp]; exact hr), ?_⟩
  intro y x hy hx
  have hval := hpix y x hy hx
  simp only [blankImg_pix] at hval
  have hlt : r.1.pix y x < 256 := by
    rw [hval]
    split
    · exact hv y x
    · norm_num
  rw [crossDissolve_pix]
  have harith : (1 - (0 : ℚ)) * ((r.1.pix y x : ℚ)) + 0 * ((r.2.pix y x : ℚ)) =
      ((r.1.pix y x : ℚ)) := by ring
  rw [harith, truncTowardZero_natCast, toU8_natCast_of_lt _ hlt, hval]

lemma getBlendedImage_one (n : ℕ) (s : Session)
    (hlen : s.endPoints.length = s.startPoints.length)
    (htris : ∀ t ∈ s.simplices,
      tdetT (triOf s.startPoints t) ≠ 0 ∧ tdetT (triOf s.endPoints t) ≠ 0)
    (hH : 2 ≤ s.endImage.height) (hW : 2 ≤ s.endImage.width)
    (hv : ∀ y x, s.endImage.pix y x < 256) :
    ∃ out, getBlendedImage n s 1 = .ok out ∧
      ∀ y x, y < s.endImage.height → x < s.endImage.width →
        out.pix y x =
          if coveredBy s.simplices s.endPoints x y = true
          then s.endImage.pix y x else 0 := by
  have htp : interpPoints 1 s.startPoints s.endPoints = s.endPoints :=
    interpPoints_one _ _ hlen
  obtain ⟨r, hr, rh1, rw1, rh2, rw2, hpix⟩ := foldWarp_end n s s.simplices htris hH hW hv
    (blankImg s.startImage.height s.startImage.width,
     blankImg s.endImage.height s.endImage.width) rfl rfl
  refine ⟨crossDissolve 1 r.1 r.2, getBlendedImage_eq n s 1 r (by rw [htp]; exact hr), ?_⟩
  intro y x hy hx
  have hval := hpix y x hy hx
  simp only [blankImg_pix] at hval
  have hlt : r.2.pix y x < 256 := by
    rw [hval]
    split
    · exact hv y x
    · norm_num
  rw [crossDissolve_pix]
  have harith : (1 - (1 : ℚ)) * ((r.1.pix y x : ℚ)) + 1 * ((r.2.pix y x : ℚ)) =
      ((r.2.pix y x : ℚ)) := by ring
  rw [harith, truncTowardZero_natCast, toU8_natCast_of_lt _ hlt, hval]

lemma getBlendedImage_self (n : ℕ) (s : Session) (al : ℚ)
    (hsame : s.endPoints = s.startPoints)
    (htris : ∀ t ∈ s.simplices,
      tdetT (triOf s.startPoints t) ≠ 0 ∧ tdetT (triOf s.endPoints t) ≠ 0)
    (hH : 2 ≤ s.startImage.height) (hW : 2 ≤ s.startImage.width)
    (hdh : s.endImage.height = s.startImage.height)
    (hdw : s.endImage.width = s.startImage.width)
    (hvs : ∀ y x, s.startImage.pix y x < 256)
    (hve : ∀ y x, s.endImage.pix y x < 256) :
    ∃ out, getBlendedImage n s al = .ok out ∧
      ∀ y x, y < s.startImage.height → x < s.startImage.width →
        out.pix y x =
          if coveredBy s.simplices s.startPoints x y = true
          then toU8 (truncTowardZero
            ((1 - al) * (s.startImage.pix y x : ℚ) + al * (s.endImage.pix y x : ℚ)))
          else 0 := by
  have htp : interpPoints al s.startPoints s.endPoints = s.startPoints := by
    rw [hsame, interpPoints_self]
  obtain ⟨r1, hr1, ah1, aw1, ah2, aw2, hpix1⟩ := foldWarp_start n s s.simplices htris hH hW hvs
    (blankImg s.startImage.height s.startImage.width,
     blankImg s.endImage.height s.endImage.width) rfl rfl
  obtain ⟨r2, hr2, bh1, bw1, bh2, bw2, hpix2⟩ := foldWarp_end n s s.simplices htris
    (hdh ▸ hH) (hdw ▸ hW) hve
    (blankImg s.startImage.height s.startImage.width,
     blankImg s.endImage.height s.endImage.width) rfl rfl
  rw [hsame] at hr2
  have hreq : r2 = r1 := by
    rw [hr1] at hr2
    exact (Except.ok.inj hr2).symm
  refine ⟨crossDissolve al r1.1 r1.2,
    getBlendedImage_eq n s al r1 (by rw [htp]; exact hr1), ?_⟩
  intro y x hy hx
  have hval1 := hpix1 y x hy hx
  have hval2 := hpix2 y x (by rw [hdh]; exact hy) (by rw [hdw]; exact hx)
  rw [hreq, hsame] at hval2
  simp only [blankImg_pix] at hval1 hval2
  rw [crossDissolve_pix, hval1, hval2]
  by_cases hcov : coveredBy s.simplices s.startPoints x y = true
  · rw [if_pos hcov, if_pos hcov, if_pos hcov]
  · rw [if_neg hcov, if_neg hcov, if_neg hcov]
    have harith : (1 - al) * ((0 : ℕ) : ℚ) + al * ((0 : ℕ) : ℚ) = 0 := by
      push_cast
      ring
    rw [harith, truncTowardZero_zero, toU8_zero]

lemma exceptBindOk {e a b : Type} (v : a) (f : a → Except e b) :
    (Except.ok v >>= f) = f v := rfl

lemma exceptBindError {e a b : Type} (err : e) (f : a → Except e b) :
    ((Except.error err : Except e a) >>= f) = Except.error err := rfl

lemma affineInit_destination (S D : Tri) (A : AffineT)
    (h : affineInit S D = .ok A) : A.destination = D := by
  by_cases h1 : tdetT S = 0
  · rw [affineInit, if_pos h1] at h
    exact absurd h (by simp)
  · by_cases h2 : adet (createMatrix S D) = 0
    · rw [affineInit, if_neg h1] at h
      simp only [h2, if_pos] at h
      exact absurd h (by simp)
    · rw [affineInit, if_neg h1] at h
      simp only [if_neg h2] at h
      rw [← Except.ok.inj h]

lemma warpPair_ok_elim (n : ℕ) (s : Session) (tp : List Pt) (acc : Img × Img)
    (t : Tri3) (acc1 : Img × Img) (h : warpPair n s tp acc t = .ok acc1) :
    ∃ A1 A2 : AffineT,
      affineInit (triOf s.startPoints t) (triOf tp t) = .ok A1 ∧
      affineInit (triOf s.endPoints t) (triOf tp t) = .ok A2 ∧
      acc1 = (transform n A1 s.startImage acc.1, transform n A2 s.endImage acc.2) := by
  cases hA1 : affineInit (triOf s.startPoints t) (triOf tp t) with
  | error e1 =>
    rw [warpPair, hA1] at h
    exact absurd h (by simp [exceptBindError])
  | ok A1 =>
    cases hA2 : affineInit (triOf s.endPoints t) (triOf tp t) with
    | error e2 =>
      rw [warpPair, hA1] at h
      simp only [exceptBindOk] at h
      rw [hA2] at h
      exact absurd h (by simp [exceptBindError])
    | ok A2 =>
      refine ⟨A1, A2, rfl, rfl, ?_⟩
      rw [warpPair_step n s tp t A1 A2 hA1 hA2 acc] at h
      exact (Except.ok.inj h).symm

lemma foldWarp_untouched (n : ℕ) (s : Session) (tp : List Pt) (y x : ℕ) :
    ∀ (tris : List Tri3) (acc : Img × Img) (r : Img × Img),
      List.foldlM (warpPair n s tp) acc tris = Except.ok r →
      (∀ t ∈ tris, maskTri (triOf tp t) x y = false) →
      r.1.pix y x = acc.1.pix y x ∧ r.2.pix y x = acc.2.pix y x := by
  intro tris
  induction tris with
  | nil =>
    intro acc r hr hm
    rw [List.foldlM_nil] at hr
    rw [← Except.ok.inj hr]
    exact ⟨rfl, rfl⟩
  | cons t ts ih =>
    intro acc r hr hm
    rw [List.foldlM_cons] at hr
    cases hw : warpPair n s tp acc t with
    | error e =>
      rw [hw, exceptBindError] at hr
      exact absurd hr (by simp)
    | ok acc1 =>
      rw [hw, exceptBindOk] at hr
      obtain ⟨A1, A2, hA1, hA2, hacc1⟩ := warpPair_ok_elim n s tp acc t acc1 hw
      have hd1 := affineInit_destination _ _ _ hA1
      have hd2 := affineInit_destination _ _ _ hA2
      have hmt := hm t (List.mem_cons_self t ts)
      have hstep1 : acc1.1.pix y x = acc.1.pix y x := by
        rw [hacc1]
        exact transform_pix_unmasked n A1 s.startImage acc.1 y x
          (fun hcon => by rw [hd1, hmt] at hcon; exact absurd hcon.2.2 (by simp))
      have hstep2 : acc1.2.pix y x = acc.2.pix y x := by
        rw [hacc1]
        exact transform_pix_unmasked n A2 s.endImage acc.2 y x
          (fun hcon => by rw [hd2, hmt] at hcon; exact absurd hcon.2.2 (by simp))
      have hrest := ih acc1 r hr (fun u hu => hm u (List.mem_cons_of_mem t hu))
      exact ⟨hrest.1.trans hstep1, hrest.2.trans hstep2⟩

lemma getBlendedImage_fail (n : ℕ) (s : Session) (al : ℚ) (e : MorphErr)
    (hfold : s.simplices.foldlM (warpPair n s (interpPoints al s.startPoints s.endPoints))
      (blankImg s.startImage.height s.startImage.width,
       blankImg s.endImage.height s.endImage.width) = Except.error e) :
    getBlendedImage n s al = .error e := by
  simp only [getBlendedImage, hfold]
  rfl

/-- C10: every pixel not covered by any triangle's rasterized
destination mask in the blended frame has value 0: both intermediate
buffers start all-zero and each per-triangle warp writes only inside its
own mask, so the cross-dissolve of two zero samples is zero. -/
theorem C10_uncovered_pixels_zero (n : ℕ) (s : Session) (al : ℚ) (y x : ℕ) (out : Img)
    (hok : getBlendedImage n s al = .ok out)
    (hun : ∀ t ∈ s.simplices,
      maskTri (triOf (interpPoints al s.startPoints s.endPoints) t) x y = false) :
    out.pix y x = 0 := by
  cases hf : s.simplices.foldlM (warpPair n s (interpPoints al s.startPoints s.endPoints))
      (blankImg s.startImage.height s.startImage.width,
       blankImg s.endImage.height s.endImage.width) with
  | error e =>
    rw [getBlendedImage_fail n s al e hf] at hok
    exact absurd hok (by simp)
  | ok r =>
    rw [getBlendedImage_eq n s al r hf] at hok
    obtain ⟨h1, h2⟩ := foldWarp_untouched n s _ y x s.simplices _ r hf hun
    simp [blankImg] at h1 h2
    rw [← Except.ok.inj hok, crossDissolve_pix, h1, h2]
    have harith : (1 - al) * ((0 : ℕ) : ℚ) + al * ((0 : ℕ) : ℚ) = 0 := by
      push_cast
      ring
    rw [harith, truncTowardZero_zero, toU8_zero]

/-- C5: for every collinear source triangle (zero area) and every
destination triangle, constructing the affine transform fails with the
singular-transform error (`np.linalg.solve` detects the non-invertible
6x6 system and raises `LinAlgError`); no transform value is returned. -/
theorem C5_collinear_singular (S D : Tri)
    (hcol : (S.2.1.1 - S.1.1) * (S.2.2.2 - S.1.2)
      - (S.2.2.1 - S.1.1) * (S.2.1.2 - S.1.2) = 0) :
    affineInit S D = .error .singular := by
  have h0 : tdetT S = 0 := by
    have heq : tdetT S = (S.2.1.1 - S.1.1) * (S.2.2.2 - S.1.2)
        - (S.2.2.1 - S.1.1) * (S.2.1.2 - S.1.2) := by
      obtain ⟨⟨x1, y1⟩, ⟨x2, y2⟩, ⟨x3, y3⟩⟩ := S
      simp only [tdetT, tdet, det3c]
      ring
    rw [heq, hcol]
  rw [affineInit, if_pos h0]

/-- Witness for C5 at the spec's example: the collinear source triangle
`(0,0), (1,1), (2,2)` with destination `(0,0), (1,0), (0,1)`. -/
theorem C5_collinear_singular_witness :
    ((((1 : ℚ), (1 : ℚ)).1 - ((0 : ℚ), (0 : ℚ)).1)
        * (((2 : ℚ), (2 : ℚ)).2 - ((0 : ℚ), (0 : ℚ)).2)
      - (((2 : ℚ), (2 : ℚ)).1 - ((0 : ℚ), (0 : ℚ)).1)
        * (((1 : ℚ), (1 : ℚ)).2 - ((0 : ℚ), (0 : ℚ)).2) = 0)
    ∧ affineInit ((0, 0), (1, 1), (2, 2)) ((0, 0), (1, 0), (0, 1))
        = .error .singular := by
  refine ⟨by norm_num, C5_collinear_singular ((0, 0), (1, 1), (2, 2)) ((0, 0), (1, 0), (0, 1))
    (by norm_num)⟩

/-- C6: for every non-degenerate source/destination triangle pair,
construction succeeds, the fitted forward matrix maps each source vertex
onto the corresponding destination vertex, and the stored inverse matrix
undoes the forward matrix at every point (exactly, in the rational
embedding). -/
theorem C6_affine_fit_and_inverse (S D : Tri) (hS : tdetT S ≠ 0) (hD : tdetT D ≠ 0) :
    ∃ A : AffineT, affineInit S D = .ok A
      ∧ applyAff A.matrix S.1 = D.1
      ∧ applyAff A.matrix S.2.1 = D.2.1
      ∧ applyAff A.matrix S.2.2 = D.2.2
      ∧ ∀ p : Pt, applyAff A.inverseMatrix (applyAff A.matrix p) = p := by
  have had : adet (createMatrix S D) ≠ 0 := fun h0 =>
    hD (by rw [← adet_createMatrix S D hS, h0, zero_mul])
  obtain ⟨m1, m2, m3⟩ := createMatrix_maps_vertices S D hS
  exact ⟨⟨S, D, createMatrix S D, inv3 (createMatrix S D)⟩,
    affineInit_ok S D hS hD, m1, m2, m3, fun p => applyAff_inv3 _ had p⟩

/-- Witness for C6: the triangle `(0,0), (1,0), (0,1)` mapped to
`(2,3), (4,3), (2,7)`, with the inverse round trip checked at `(10,20)`. -/
theorem C6_affine_fit_and_inverse_witness :
    tdetT ((0, 0), (1, 0), (0, 1)) ≠ 0 ∧ tdetT ((2, 3), (4, 3), (2, 7)) ≠ 0 ∧
    ∃ A : AffineT, affineInit ((0, 0), (1, 0), (0, 1)) ((2, 3), (4, 3), (2, 7)) = .ok A
      ∧ applyAff A.matrix (0, 0) = (2, 3)
      ∧ applyAff A.inverseMatrix (applyAff A.matrix (10, 20)) = (10, 20) := by
  have h1 : tdetT (((0, 0), (1, 0), (0, 1)) : Tri) ≠ 0 := by
    norm_num [tdetT, tdet, det3c]
  have h2 : tdetT (((2, 3), (4, 3), (2, 7)) : Tri) ≠ 0 := by
    norm_num [tdetT, tdet, det3c]
  obtain ⟨A, hA, hm1, hm2, hm3, hinv⟩ :=
    C6_affine_fit_and_inverse ((0, 0), (1, 0), (0, 1)) ((2, 3), (4, 3), (2, 7)) h1 h2
  exact ⟨h1, h2, A, hA, hm1, hinv (10, 20)⟩

/-- A source triangle sitting at offset (5,5). -/
def farTri : Tri := ((5, 5), (6, 5), (5, 6))

/-- The unit destination triangle at the origin. -/
def originTri : Tri := ((0, 0), (1, 0), (0, 1))

/-- The affine matrix fitted from `farTri` to `originTri`: the translation
by (-5,-5). -/
def shiftMat : Aff := ⟨1, 0, -5, 0, 1, -5⟩

/-- Its inverse, the translation by (5,5). -/
def shiftInv : Aff := ⟨1, 0, 5, 0, 1, 5⟩

/-- A 2x2 constant-9 source buffer. -/
def src2 : Img := ⟨2, 2, fun _ _ => 9⟩

/-- A 3x3 constant-7 destination buffer. -/
def dst3 : Img := ⟨3, 3, fun _ _ => 7⟩

/-- C2 (amended): a masked destination pixel whose inverse-mapped source
coordinate falls outside the source buffer is NOT left unwritten: the NaN
sample produced by the out-of-bounds interpolation is assigned through the
float-to-uint8 cast, storing the platform byte `nanByte` (0 on the
reference platform) in place of the pixel's previous value.  No error is
raised (the function is total). -/
theorem C2_oob_sample_overwritten (nanByte : ℕ) (A : AffineT) (src dst : Img) (y x : ℕ)
    (hy : y < dst.height) (hx : x < dst.width)
    (hm : maskTri A.destination x y = true)
    (hnone : interp2 src (applyAff A.inverseMatrix ((x : ℚ), (y : ℚ))).2
      (applyAff A.inverseMatrix ((x : ℚ), (y : ℚ))).1 = none) :
    (transform nanByte A src dst).pix y x = nanByte % 256 :=
  transform_pix_nan nanByte A src dst y x hy hx hm hnone

lemma maskTri_origin_00 : maskTri originTri 0 0 = true := by
  simp only [maskTri, originTri, edgeFn, decide_eq_true_eq]
  norm_num

lemma interp2_src2_oob : interp2 src2 5 5 = none := by
  rw [interp2, if_pos]
  norm_num [src2]

lemma applyAff_shiftInv_00 :
    applyAff shiftInv (((0 : ℕ) : ℚ), ((0 : ℕ) : ℚ)) = (5, 5) := by
  norm_num [applyAff, shiftInv]

lemma interp2_shift_00 :
    interp2 src2 (applyAff shiftInv (((0 : ℕ) : ℚ), ((0 : ℕ) : ℚ))).2
      (applyAff shiftInv (((0 : ℕ) : ℚ), ((0 : ℕ) : ℚ))).1 = none := by
  rw [applyAff_shiftInv_00]
  exact interp2_src2_oob

/-- Witness for C2 (amended): warping `src2` through the `farTri` to
`originTri` transform writes the nan byte (here 3) at the masked pixel
(0,0), whose inverse image (5,5) is outside the 2x2 source buffer. -/
theorem C2_oob_sample_overwritten_witness :
    maskTri originTri 0 0 = true ∧ interp2 src2 5 5 = none ∧
    (transform 3 ⟨farTri, originTri, shiftMat, shiftInv⟩ src2 dst3).pix 0 0 = 3 := by
  refine ⟨maskTri_origin_00, interp2_src2_oob, ?_⟩
  have h := C2_oob_sample_overwritten 3 ⟨farTri, originTri, shiftMat, shiftInv⟩ src2 dst3 0 0
    (by norm_num [dst3]) (by norm_num [dst3]) maskTri_origin_00
    interp2_shift_00
  simpa using h

/-- Counterexample to C2 as stated: the constructed affine transform from
`farTri` to `originTri` maps the masked destination pixel (0,0) to the
out-of-bounds source coordinate (5,5), and `transform` overwrites the
pixel (previous value 7) with the cast nan byte (0) instead of leaving it
unwritten. -/
theorem C2_counterexample :
    affineInit farTri originTri = .ok ⟨farTri, originTri, shiftMat, shiftInv⟩
    ∧ maskTri originTri 0 0 = true
    ∧ interp2 src2 5 5 = none
    ∧ dst3.pix 0 0 = 7
    ∧ (transform 0 ⟨farTri, originTri, shiftMat, shiftInv⟩ src2 dst3).pix 0 0 = 0 := by
  have h5 : tdetT farTri ≠ 0 := by norm_num [tdetT, farTri, tdet, det3c]
  have h0 : tdetT originTri ≠ 0 := by norm_num [tdetT, originTri, tdet, det3c]
  have hcm : createMatrix farTri originTri = shiftMat := by
    rw [createMatrix]
    norm_num [tdetT, farTri, originTri, tdet, det3c, shiftMat, Aff.mk.injEq]
  have hinv : inv3 shiftMat = shiftInv := by
    rw [inv3]
    norm_num [adet, shiftMat, shiftInv, Aff.mk.injEq]
  refine ⟨?_, maskTri_origin_00, interp2_src2_oob, rfl, ?_⟩
  · rw [affineInit_ok farTri originTri h5 h0, hcm, hinv]
  · have h := transform_pix_nan 0 ⟨farTri, originTri, shiftMat, shiftInv⟩ src2 dst3 0 0
      (by norm_num [dst3]) (by norm_num [dst3]) maskTri_origin_00
      interp2_shift_00
    simpa using h

/-- A 1x1 constant-1 intermediate buffer. -/
def ts1 : Img := ⟨1, 1, fun _ _ => 1⟩

/-- A 1x1 constant-2 intermediate buffer. -/
def te1 : Img := ⟨1, 1, fun _ _ => 2⟩

/-- Modelled from the spec: "Output frame =
round((1-alpha)·targetStart + alpha·targetEnd), clamped/cast to 8-bit
unsigned per channel" - the weighted sum rounded to the NEAREST integer
(floor of the value plus one half), for comparison with the code's
truncating `astype('uint8')` at Morphing.py line 157. -/
def specRoundPixel (alpha : ℚ) (vs ve : ℕ) : ℕ :=
  toU8 ⌊(1 - alpha) * (vs : ℚ) + alpha * (ve : ℚ) + 1 / 2⌋

/-- C7 (amended): each pixel of the cross-dissolved frame is the
TRUNCATION (floor, the weighted sum being nonnegative) of
`(1-alpha)·targetStart + alpha·targetEnd`, not its rounding to nearest;
for alpha in [0,1] and 8-bit inputs the value stays in [0,255], so the
uint8 cast does not wrap. -/
theorem C7_dissolve_truncates (al : ℚ) (ts te : Img) (y x : ℕ)
    (h0 : 0 ≤ al) (h1 : al ≤ 1)
    (hts : ts.pix y x < 256) (hte : te.pix y x < 256) :
    ((crossDissolve al ts te).pix y x : ℤ)
      = ⌊(1 - al) * (ts.pix y x : ℚ) + al * (te.pix y x : ℚ)⌋
    ∧ (crossDissolve al ts te).pix y x ≤ 255 := by
  have ha0 : (0 : ℚ) ≤ (ts.pix y x : ℚ) := Nat.cast_nonneg _
  have hb0 : (0 : ℚ) ≤ (te.pix y x : ℚ) := Nat.cast_nonneg _
  have ha255 : (ts.pix y x : ℚ) ≤ 255 := by exact_mod_cast Nat.lt_succ_iff.mp hts
  have hb255 : (te.pix y x : ℚ) ≤ 255 := by exact_mod_cast Nat.lt_succ_iff.mp hte
  have hq0 : 0 ≤ (1 - al) * (ts.pix y x : ℚ) + al * (te.pix y x : ℚ) :=
    add_nonneg (mul_nonneg (by linarith) ha0) (mul_nonneg h0 hb0)
  have hq255 : (1 - al) * (ts.pix y x : ℚ) + al * (te.pix y x : ℚ) ≤ 255 := by
    nlinarith
  have hfl0 : 0 ≤ ⌊(1 - al) * (ts.pix y x : ℚ) + al * (te.pix y x : ℚ)⌋ :=
    Int.le_floor.mpr (by exact_mod_cast hq0)
  have hfl255 : ⌊(1 - al) * (ts.pix y x : ℚ) + al * (te.pix y x : ℚ)⌋ ≤ 255 := by
    have hle := Int.floor_le_floor hq255
    simpa using hle
  have hmod : ⌊(1 - al) * (ts.pix y x : ℚ) + al * (te.pix y x : ℚ)⌋ % 256
      = ⌊(1 - al) * (ts.pix y x : ℚ) + al * (te.pix y x : ℚ)⌋ :=
    Int.emod_eq_of_lt hfl0 (by omega)
  rw [crossDissolve_pix, truncTowardZero, if_neg (not_lt.mpr hq0), toU8, hmod]
  exact ⟨Int.toNat_of_nonneg hfl0, by omega⟩

/-- Witness for C7 (amended) at alpha = 1/3 on 1x1 buffers holding 1
and 2: the output pixel is floor(4/3) = 1 and stays within 8 bits. -/
theorem C7_dissolve_truncates_witness :
    0 ≤ (1 / 3 : ℚ) ∧ (1 / 3 : ℚ) ≤ 1 ∧ ts1.pix 0 0 < 256 ∧ te1.pix 0 0 < 256 ∧
    ((crossDissolve (1 / 3) ts1 te1).pix 0 0 : ℤ)
      = ⌊(1 - (1 / 3 : ℚ)) * (ts1.pix 0 0 : ℚ) + (1 / 3) * (te1.pix 0 0 : ℚ)⌋
    ∧ (crossDissolve (1 / 3) ts1 te1).pix 0 0 ≤ 255 := by
  have h := C7_dissolve_truncates (1 / 3) ts1 te1 0 0 (by norm_num) (by norm_num)
    (by norm_num [ts1]) (by norm_num [te1])
  exact ⟨by norm_num, by norm_num, by norm_num [ts1], by norm_num [te1], h.1, h.2⟩

/-- Counterexample to C7 as stated: at alpha = 1/2 with intermediate
pixel values 1 and 2 the weighted sum is 3/2; the code truncates it to 1
while the spec's round-to-nearest yields 2. -/
theorem C7_counterexample :
    (crossDissolve (1 / 2) ts1 te1).pix 0 0 = 1
    ∧ specRoundPixel (1 / 2) (ts1.pix 0 0) (te1.pix 0 0) = 2
    ∧ (crossDissolve (1 / 2) ts1 te1).pix 0 0
        ≠ specRoundPixel (1 / 2) (ts1.pix 0 0) (te1.pix 0 0) := by
  have hsum : (1 - (1 / 2 : ℚ)) * ((ts1.pix 0 0 : ℚ)) + (1 / 2) * ((te1.pix 0 0 : ℚ))
      = 3 / 2 := by
    norm_num [ts1, te1]
  have hc : (crossDissolve (1 / 2) ts1 te1).pix 0 0 = 1 := by
    rw [crossDissolve_pix, hsum, truncTowardZero, if_neg (by norm_num)]
    have hfl : ⌊(3 / 2 : ℚ)⌋ = 1 := by
      rw [Int.floor_eq_iff]
      norm_num
    rw [hfl]
    rfl
  have hs : specRoundPixel (1 / 2) (ts1.pix 0 0) (te1.pix 0 0) = 2 := by
    rw [specRoundPixel]
    have hsum2 : (1 - (1 / 2 : ℚ)) * ((ts1.pix 0 0 : ℚ))
        + (1 / 2) * ((te1.pix 0 0 : ℚ)) + 1 / 2 = 2 := by
      norm_num [ts1, te1]
    rw [hsum2]
    have hfl : ⌊(2 : ℚ)⌋ = 2 := by
      rw [Int.floor_eq_iff]
      norm_num
    rw [hfl]
    rfl
  exact ⟨hc, hs, by rw [hc, hs]; norm_num⟩

lemma htris_small : ∀ t ∈ sessSmall.simplices,
    tdetT (triOf sessSmall.startPoints t) ≠ 0 ∧
    tdetT (triOf sessSmall.endPoints t) ≠ 0 := by
  intro t ht
  simp only [sessSmall] at ht ⊢
  rw [List.mem_singleton] at ht
  subst ht
  constructor <;> norm_num [triOf, ptsSmall, tdetT, tdet, det3c]

lemma hv_small_start : ∀ y x, sessSmall.startImage.pix y x < 256 := by
  intro y x
  norm_num [sessSmall, img255]

lemma hv_small_end : ∀ y x, sessSmall.endImage.pix y x < 256 := by
  intro y x
  norm_num [sessSmall, img0]

lemma maskTri_small_22 : maskTri (((0, 0), (1, 0), (0, 1)) : Tri) 2 2 = false := by
  simp only [maskTri, edgeFn, decide_eq_false_iff_not]
  norm_num

lemma maskTri_origin_22 : maskTri originTri 2 2 = false := by
  simp only [maskTri, originTri, edgeFn, decide_eq_false_iff_not]
  norm_num

lemma blendPix_ok (n : ℕ) (s : Session) (al : ℚ) (y x : ℕ) (out : Img)
    (h : getBlendedImage n s al = .ok out) :
    blendPix n s al y x = some (out.pix y x) := by
  rw [blendPix, h]

lemma coveredPtsSmall_00 : coveredBy [((0, 1, 2) : Tri3)] ptsSmall 0 0 = true := by
  rw [coveredBy_cons, show triOf ptsSmall (0, 1, 2) = originTri from rfl,
    maskTri_origin_00]
  rfl

lemma coveredPtsSmall_22 : coveredBy [((0, 1, 2) : Tri3)] ptsSmall 2 2 = false := by
  rw [coveredBy_cons, show triOf ptsSmall (0, 1, 2) = originTri from rfl,
    maskTri_origin_22]
  rfl

/-- C1 (amended): blend(0) returns a frame equal to the start image at
every pixel covered by some triangle's rasterized target mask and 0 at
every uncovered pixel (so it reproduces the start image only where the
triangulation covers it); symmetrically blend(1) for the end image.  The
hypotheses spell out a valid session: matching point-set lengths,
non-degenerate triangles, images at least 2x2 with 8-bit samples. -/
theorem C1_blend_endpoints (n : ℕ) (s : Session)
    (hlen : s.endPoints.length = s.startPoints.length)
    (htris : ∀ t ∈ s.simplices,
      tdetT (triOf s.startPoints t) ≠ 0 ∧ tdetT (triOf s.endPoints t) ≠ 0)
    (hHs : 2 ≤ s.startImage.height) (hWs : 2 ≤ s.startImage.width)
    (hHe : 2 ≤ s.endImage.height) (hWe : 2 ≤ s.endImage.width)
    (hvs : ∀ y x, s.startImage.pix y x < 256)
    (hve : ∀ y x, s.endImage.pix y x < 256) :
    (∃ out, getBlendedImage n s 0 = .ok out ∧
      ∀ y x, y < s.startImage.height → x < s.startImage.width →
        out.pix y x =
          if coveredBy s.simplices s.startPoints x y = true
          then s.startImage.pix y x else 0)
    ∧ (∃ out, getBlendedImage n s 1 = .ok out ∧
      ∀ y x, y < s.endImage.height → x < s.endImage.width →
        out.pix y x =
          if coveredBy s.simplices s.endPoints x y = true
          then s.endImage.pix y x else 0) :=
  ⟨getBlendedImage_zero n s hlen htris hHs hWs hvs,
   getBlendedImage_one n s hlen htris hHe hWe hve⟩

/-- Witness for C1 (amended): on the 3x3 session whose single triangle
covers pixel (0,0), blend(0) reproduces the start value 255 there and
blend(1) the end value 0. -/
theorem C1_blend_endpoints_witness :
    blendPix 0 sessSmall 0 0 0 = some (sessSmall.startImage.pix 0 0)
    ∧ blendPix 0 sessSmall 1 0 0 = some (sessSmall.endImage.pix 0 0) := by
  obtain ⟨h0part, h1part⟩ := C1_blend_endpoints 0 sessSmall rfl htris_small
    (by norm_num [sessSmall, img255]) (by norm_num [sessSmall, img255])
    (by norm_num [sessSmall, img0]) (by norm_num [sessSmall, img0])
    hv_small_start hv_small_end
  obtain ⟨o0, ho0, hp0⟩ := h0part
  obtain ⟨o1, ho1, hp1⟩ := h1part
  have hc0 := hp0 0 0 (by norm_num [sessSmall, img255]) (by norm_num [sessSmall, img255])
  have hc1 := hp1 0 0 (by norm_num [sessSmall, img0]) (by norm_num [sessSmall, img0])
  simp only [sessSmall] at hc0 hc1
  rw [coveredPtsSmall_00] at hc0 hc1
  simp only [if_pos] at hc0 hc1
  constructor
  · rw [blendPix_ok 0 sessSmall 0 0 0 o0 ho0, hc0]
    rfl
  · rw [blendPix_ok 0 sessSmall 1 0 0 o1 ho1, hc1]
    rfl

/-- Counterexample to C1 as stated: in the 3x3 session whose single
triangle leaves pixel (2,2) uncovered, blend(0) yields 0 there although
the start image holds 255 - blend(0) does not reproduce the start image
at uncovered pixels. -/
theorem C1_counterexample :
    blendPix 0 sessSmall 0 2 2 = some 0 ∧ sessSmall.startImage.pix 2 2 = 255 := by
  obtain ⟨out, hok, hpix⟩ := getBlendedImage_zero 0 sessSmall rfl htris_small
    (by norm_num [sessSmall, img255]) (by norm_num [sessSmall, img255]) hv_small_start
  have h22 := hpix 2 2 (by norm_num [sessSmall, img255]) (by norm_num [sessSmall, img255])
  simp only [sessSmall] at h22
  rw [coveredPtsSmall_22] at h22
  simp only [Bool.false_eq_true, if_false] at h22
  constructor
  · rw [blendPix_ok 0 sessSmall 0 2 2 out hok, h22]
  · rfl

/-- Witness for C10: in the 3x3 session whose single triangle leaves
pixel (2,2) unmasked, the blend at alpha = 1/2 is 0 there. -/
theorem C10_uncovered_pixels_zero_witness :
    blendPix 0 sessSmall (1 / 2) 2 2 = some 0 := by
  obtain ⟨out, hok, hpix⟩ := getBlendedImage_self 0 sessSmall (1 / 2) rfl htris_small
    (by norm_num [sessSmall, img255]) (by norm_num [sessSmall, img255]) rfl rfl
    hv_small_start hv_small_end
  have hun : ∀ t ∈ sessSmall.simplices,
      maskTri (triOf (interpPoints (1 / 2) sessSmall.startPoints sessSmall.endPoints) t)
        2 2 = false := by
    intro t ht
    simp only [sessSmall] at ht ⊢
    rw [List.mem_singleton] at ht
    subst ht
    rw [interpPoints_self, show triOf ptsSmall (0, 1, 2) = originTri from rfl]
    exact maskTri_origin_22
  have hz := C10_uncovered_pixels_zero 0 sessSmall (1 / 2) 2 2 out hok hun
  rw [blendPix_ok 0 sessSmall (1 / 2) 2 2 out hok, hz]

/-- C9 (corrected/amended): the session constructor performs no
point-set validation beyond the numpy-array type checks (which the typed
embedding carries implicitly): it never compares the two point-set
lengths, and simply builds the triangulation of the start points once,
storing it in the session; fewer than 3 start points fail inside the
triangulation library (QhullError), not through an eager `InvalidInput`
check. -/
theorem C9_constructor_no_validation (si ei : Img) (sp ep : List Pt) :
    (sp.length < 3 → blenderInit si sp ei ep = .error .qhullError)
    ∧ (∀ ts : List Tri3, delaunayTriangulation sp = .ok ts →
        blenderInit si sp ei ep = .ok ⟨si, sp, ei, ep, ts⟩) := by
  constructor
  · intro h
    rw [blenderInit, delaunayTriangulation, if_pos h]
    rfl
  · intro ts hts
    rw [blenderInit, hts]
    rfl

lemma delaunay_ptsSmall : delaunayTriangulation ptsSmall = .ok [(0, 1, 2)] := by
  have hnc : ¬allCollinear ptsSmall := by
    intro h
    have h1 := h (0, 0) (by simp [ptsSmall]) (1, 0) (by simp [ptsSmall])
      (0, 1) (by simp [ptsSmall])
    norm_num [tdet, det3c] at h1
  rw [delaunayTriangulation, if_neg (by norm_num [ptsSmall]), if_neg hnc]
  rfl

/-- Witness for C9 (amended): one point is rejected by the
triangulation; three non-collinear start points succeed with the
triangulation stored, regardless of the (empty) end point list. -/
theorem C9_constructor_no_validation_witness :
    (([((0 : ℚ), (0 : ℚ))] : List Pt).length < 3
      ∧ blenderInit img255 [((0 : ℚ), (0 : ℚ))] img0 [] = .error .qhullError)
    ∧ blenderInit img255 ptsSmall img0 []
        = .ok ⟨img255, ptsSmall, img0, [], [(0, 1, 2)]⟩ := by
  refine ⟨⟨by norm_num, ?_⟩, ?_⟩
  · exact (C9_constructor_no_validation img255 img0 [((0 : ℚ), (0 : ℚ))] []).1
      (by norm_num)
  · exact (C9_constructor_no_validation img255 img0 ptsSmall []).2
      [(0, 1, 2)] delaunay_ptsSmall

/-- Counterexample to C9 as stated: construction succeeds for point sets
of unequal lengths (three start points, zero end points) - no
`InvalidInput` rejection happens before the triangulation is built. -/
theorem C9_counterexample :
    ([] : List Pt).length ≠ ptsSmall.length
    ∧ (blenderInit img255 ptsSmall img0 []).isOk = true := by
  constructor
  · norm_num [ptsSmall]
  · rw [blenderInit, delaunay_ptsSmall]
    rfl

/-- C3 (corrected/amended): `generateSequence` with `sequenceLength = 1`
does not perform an `InvalidSequenceLength` check: it first persists
frame 1 (the start image) and then raises `ZeroDivisionError` computing
`1.0 / ((sequenceLength - 2) + 1)`; with `sequenceLength = 0` no error is
raised at all (the intermediate range is empty and the run completes). -/
theorem C3_no_length_validation (n : ℕ) (s : Session) (rev : Bool) :
    generateMorphVideo n s 1 rev
      = ([⟨frameName 1, s.startImage⟩], some .zeroDivisionError)
    ∧ (generateMorphVideo n s 0 rev).2 = none := by
  refine ⟨rfl, ?_⟩
  cases rev
  · rfl
  · rfl

/-- Counterexample to C3 as stated: at `sequenceLength = 1` the error is
a division by zero, not `InvalidSequenceLength`, and it is raised only
after one frame (frame001.jpg, the start image) has been written. -/
theorem C3_counterexample :
    (generateMorphVideo 0 sessBig 1 true).2 = some MorphErr.zeroDivisionError
    ∧ (generateMorphVideo 0 sessBig 1 true).2 ≠ some MorphErr.invalidSequenceLength
    ∧ (generateMorphVideo 0 sessBig 1 true).1.map (fun w => w.name) = ["frame001.jpg"] := by
  refine ⟨rfl, ?_, ?_⟩
  · intro h
    rw [show (generateMorphVideo 0 sessBig 1 true).2 = some MorphErr.zeroDivisionError
      from rfl] at h
    exact absurd (Option.some.inj h) (by simp)
  · rfl

/-- The triangle spanned by the `ptsBig` landmarks. -/
def bigTri : Tri := ((0, 0), (2, 0), (0, 2))

lemma maskTri_big_00 : maskTri bigTri 0 0 = true := by
  simp only [maskTri, bigTri, edgeFn, decide_eq_true_eq]
  norm_num

lemma coveredPtsBig_00 : coveredBy [((0, 1, 2) : Tri3)] ptsBig 0 0 = true := by
  rw [coveredBy_cons, show triOf ptsBig (0, 1, 2) = bigTri from rfl, maskTri_big_00]
  rfl

lemma htris_big : ∀ t ∈ sessBig.simplices,
    tdetT (triOf sessBig.startPoints t) ≠ 0 ∧
    tdetT (triOf sessBig.endPoints t) ≠ 0 := by
  intro t ht
  simp only [sessBig] at ht ⊢
  rw [List.mem_singleton] at ht
  subst ht
  constructor <;> norm_num [triOf, ptsBig, tdetT, tdet, det3c]

lemma hv_big_start : ∀ y x, sessBig.startImage.pix y x < 256 := by
  intro y x
  norm_num [sessBig, img200]

lemma hv_big_end : ∀ y x, sessBig.endImage.pix y x < 256 := by
  intro y x
  norm_num [sessBig, img0]

lemma toU8_trunc_lit (q : ℚ) (k : ℕ) (hk : k < 256) (hq : q = (k : ℚ)) :
    toU8 (truncTowardZero q) = k := by
  rw [hq, truncTowardZero_natCast, toU8_natCast_of_lt _ hk]

/-- The pixel value at (0,0) of the sessBig blend at parameter `al`:
`trunc((1 - al) * 200)`. -/
lemma sessBig_blend_val (al : ℚ) (k : ℕ) (hk : k < 256)
    (hval : (1 - al) * ((sessBig.startImage.pix 0 0 : ℚ))
      + al * ((sessBig.endImage.pix 0 0 : ℚ)) = (k : ℚ)) :
    ∃ out, getBlendedImage 0 sessBig al = .ok out ∧ out.pix 0 0 = k := by
  obtain ⟨out, hok, hpix⟩ := getBlendedImage_self 0 sessBig al rfl htris_big
    (by norm_num [sessBig, img200]) (by norm_num [sessBig, img200]) rfl rfl
    hv_big_start hv_big_end
  refine ⟨out, hok, ?_⟩
  have h00 := hpix 0 0 (by norm_num [sessBig, img200]) (by norm_num [sessBig, img200])
  rw [show coveredBy sessBig.simplices sessBig.startPoints 0 0 = true from coveredPtsBig_00]
    at h00
  rw [if_pos rfl] at h00
  rw [h00]
  exact toU8_trunc_lit _ k hk hval

/-- C4 (code bug): evaluation of the forward sequence generator at
`sequenceLength = 5` on a concrete session.  The intermediate frame loop
saves frame `i+1` instead of `i+2` (Morphing.py lines 187, 191), so the
file list is [frame001, frame001, frame002, frame003, frame005]: the
names are not pairwise distinct, frame004.jpg is never written, and
frame001.jpg ends up holding the first intermediate blend (value 150 at
pixel (0,0)) instead of the start image (value 200). -/
theorem C4_forward_filenames_bug :
    (generateMorphVideo 0 sessBig 5 false).2 = none
    ∧ (generateMorphVideo 0 sessBig 5 false).1.map (fun w => w.name)
        = ["frame001.jpg", "frame001.jpg", "frame002.jpg", "frame003.jpg", "frame005.jpg"]
    ∧ fsLookup (generateMorphVideo 0 sessBig 5 false).1 "frame004.jpg" = none
    ∧ (fsLookup (generateMorphVideo 0 sessBig 5 false).1 "frame001.jpg").map
        (fun im => im.pix 0 0) = some 150
    ∧ sessBig.startImage.pix 0 0 = 200 := by
  obtain ⟨B1, hB1, hB1v⟩ := sessBig_blend_val
    (0 + 1 / ((((5 : ℤ) : ℚ) - 2) + 1)) 150 (by norm_num)
    (by norm_num [sessBig, img200, img0])
  obtain ⟨B2, hB2, hB2v⟩ := sessBig_blend_val
    ((0 + 1 / ((((5 : ℤ) : ℚ) - 2) + 1)) + 1 / ((((5 : ℤ) : ℚ) - 2) + 1)) 100 (by norm_num)
    (by norm_num [sessBig, img200, img0])
  obtain ⟨B3, hB3, hB3v⟩ := sessBig_blend_val
    (((0 + 1 / ((((5 : ℤ) : ℚ) - 2) + 1)) + 1 / ((((5 : ℤ) : ℚ) - 2) + 1))
      + 1 / ((((5 : ℤ) : ℚ) - 2) + 1)) 50 (by norm_num)
    (by norm_num [sessBig, img200, img0])
  have hIF : interFrames 0 sessBig (1 / ((((5 : ℤ) : ℚ) - 2) + 1)) 3 0 0 =
      ([⟨frameName (((0 : ℕ) : ℤ) + 1), B1⟩,
        ⟨frameName (((1 : ℕ) : ℤ) + 1), B2⟩,
        ⟨frameName (((2 : ℕ) : ℤ) + 1), B3⟩], none) := by
    simp only [interFrames, hB1, hB2, hB3]
  have hgen : generateMorphVideo 0 sessBig 5 false =
      ([⟨frameName 1, sessBig.startImage⟩] ++
        ([⟨frameName (((0 : ℕ) : ℤ) + 1), B1⟩,
          ⟨frameName (((1 : ℕ) : ℤ) + 1), B2⟩,
          ⟨frameName (((2 : ℕ) : ℤ) + 1), B3⟩]) ++
        [⟨frameName 5, sessBig.endImage⟩], none) := by
    rw [generateMorphVideo, if_neg (by decide)]
    rw [show (((5 : ℤ) - 2).toNat) = 3 from rfl]
    simp only [hIF]
    simp only [Bool.false_eq_true, if_false]
  have hn1 : frameName 1 = "frame001.jpg" := by decide
  have hn01 : frameName (((0 : ℕ) : ℤ) + 1) = "frame001.jpg" := by decide
  have hn12 : frameName (((1 : ℕ) : ℤ) + 1) = "frame002.jpg" := by decide
  have hn23 : frameName (((2 : ℕ) : ℤ) + 1) = "frame003.jpg" := by decide
  have hn5 : frameName 5 = "frame005.jpg" := by decide
  rw [hgen]
  refine ⟨rfl, ?_, ?_, ?_, rfl⟩
  · simp only [List.map_append, List.map_cons, List.map_nil, hn1, hn01, hn12, hn23, hn5]
    rfl
  · simp only [fsLookup, List.append_assoc, List.cons_append, List.nil_append,
      List.foldl_cons, List.foldl_nil, hn1, hn01, hn12, hn23, hn5]
    simp
  · simp only [fsLookup, List.append_assoc, List.cons_append, List.nil_append,
      List.foldl_cons, List.foldl_nil, hn1, hn01, hn12, hn23, hn5]
    simp [hB1v]

/-- C8 (code bug): evaluation of the mirrored sequence generator at
`sequenceLength = 5` on a concrete session.  The reversed pass itself
appends the forward images again in exact reverse order under numbers
6..10 (the 10 saves form a palindrome of pixel values), but because the
forward intermediates were misfiled at frame001..frame003, the file
frame004.jpg never exists and frame001.jpg holds the first intermediate
(150), not the start image - so on disk frames 6..10 do not mirror files
frame005..frame001 and only 9 distinct files exist. -/
theorem C8_reversed_palindrome_bug :
    (generateMorphVideo 0 sessBig 5 true).2 = none
    ∧ (generateMorphVideo 0 sessBig 5 true).1.length = 10
    ∧ (generateMorphVideo 0 sessBig 5 true).1.map (fun w => w.name)
        = ["frame001.jpg", "frame001.jpg", "frame002.jpg", "frame003.jpg", "frame005.jpg",
           "frame006.jpg", "frame007.jpg", "frame008.jpg", "frame009.jpg", "frame010.jpg"]
    ∧ (generateMorphVideo 0 sessBig 5 true).1.map (fun w => w.image.pix 0 0)
        = [200, 150, 100, 50, 0, 0, 50, 100, 150, 200]
    ∧ fsLookup (generateMorphVideo 0 sessBig 5 true).1 "frame004.jpg" = none
    ∧ (fsLookup (generateMorphVideo 0 sessBig 5 true).1 "frame010.jpg").map
        (fun im => im.pix 0 0) = some 200
    ∧ (fsLookup (generateMorphVideo 0 sessBig 5 true).1 "frame001.jpg").map
        (fun im => im.pix 0 0) = some 150 := by
  obtain ⟨B1, hB1, hB1v⟩ := sessBig_blend_val
    (0 + 1 / ((((5 : ℤ) : ℚ) - 2) + 1)) 150 (by norm_num)
    (by norm_num [sessBig, img200, img0])
  obtain ⟨B2, hB2, hB2v⟩ := sessBig_blend_val
    ((0 + 1 / ((((5 : ℤ) : ℚ) - 2) + 1)) + 1 / ((((5 : ℤ) : ℚ) - 2) + 1)) 100 (by norm_num)
    (by norm_num [sessBig, img200, img0])
  obtain ⟨B3, hB3, hB3v⟩ := sessBig_blend_val
    (((0 + 1 / ((((5 : ℤ) : ℚ) - 2) + 1)) + 1 / ((((5 : ℤ) : ℚ) - 2) + 1))
      + 1 / ((((5 : ℤ) : ℚ) - 2) + 1)) 50 (by norm_num)
    (by norm_num [sessBig, img200, img0])
  have hIF : interFrames 0 sessBig (1 / ((((5 : ℤ) : ℚ) - 2) + 1)) 3 0 0 =
      ([⟨frameName (((0 : ℕ) : ℤ) + 1), B1⟩,
        ⟨frameName (((1 : ℕ) : ℤ) + 1), B2⟩,
        ⟨frameName (((2 : ℕ) : ℤ) + 1), B3⟩], none) := by
    simp only [interFrames, hB1, hB2, hB3]
  have hgen : generateMorphVideo 0 sessBig 5 true =
      ([⟨frameName 1, sessBig.startImage⟩,
        ⟨frameName (((0 : ℕ) : ℤ) + 1), B1⟩,
        ⟨frameName (((1 : ℕ) : ℤ) + 1), B2⟩,
        ⟨frameName (((2 : ℕ) : ℤ) + 1), B3⟩,
        ⟨frameName 5, sessBig.endImage⟩,
        ⟨frameName (5 + 1), sessBig.endImage⟩,
        ⟨frameName (5 + 1 + 1), B3⟩,
        ⟨frameName (5 + 1 + 1 + 1), B2⟩,
        ⟨frameName (5 + 1 + 1 + 1 + 1), B1⟩,
        ⟨frameName (5 + 1 + 1 + 1 + 1 + 1), sessBig.startImage⟩], none) := by
    rw [generateMorphVideo, if_neg (by decide)]
    rw [show (((5 : ℤ) - 2).toNat) = 3 from rfl]
    simp only [hIF]
    simp only [if_pos, List.map_cons, List.map_nil, List.nil_append, List.cons_append,
      List.reverse_cons, List.reverse_nil, List.append_assoc, revWrites, List.append_nil]
  have hn1 : frameName 1 = "frame001.jpg" := by decide
  have hn01 : frameName (((0 : ℕ) : ℤ) + 1) = "frame001.jpg" := by decide
  have hn12 : frameName (((1 : ℕ) : ℤ) + 1) = "frame002.jpg" := by decide
  have hn23 : frameName (((2 : ℕ) : ℤ) + 1) = "frame003.jpg" := by decide
  have hn5 : frameName 5 = "frame005.jpg" := by decide
  have hn6 : frameName (5 + 1) = "frame006.jpg" := by decide
  have hn7 : frameName (5 + 1 + 1) = "frame007.jpg" := by decide
  have hn8 : frameName (5 + 1 + 1 + 1) = "frame008.jpg" := by decide
  have hn9 : frameName (5 + 1 + 1 + 1 + 1) = "frame009.jpg" := by decide
  have hn10 : frameName (5 + 1 + 1 + 1 + 1 + 1) = "frame010.jpg" := by decide
  rw [hgen]
  refine ⟨rfl, rfl, ?_, ?_, ?_, ?_, ?_⟩
  · simp only [List.map_cons, List.map_nil, hn1, hn01, hn12, hn23, hn5, hn6, hn7, hn8,
      hn9, hn10]
  · simp only [List.map_cons, List.map_nil, hB1v, hB2v, hB3v]
    norm_num [sessBig, img200, img0]
  · simp only [fsLookup, List.foldl_cons, List.foldl_nil, hn1, hn01, hn12, hn23, hn5,
      hn6, hn7, hn8, hn9, hn10]
    simp
  · simp only [fsLookup, List.foldl_cons, List.foldl_nil, hn1, hn01, hn12, hn23, hn5,
      hn6, hn7, hn8, hn9, hn10]
    simp
    norm_num [sessBig, img200]
  · simp only [fsLookup, List.foldl_cons, List.foldl_nil, hn1, hn01, hn12, hn23, hn5,
      hn6, hn7, hn8, hn9, hn10]
    simp [hB1v]

end Morphing
